/-
Verification of the utility helpers of the AI-Engineer repository.

This file shallowly embeds the logic of `src/utils/api_helpers.py`
(exponential-backoff retry wrappers, sliding-window rate limiters) and
`src/utils/cost_tracker.py` (per-model pricing, session cost tracking,
threshold checks) and proves or refutes the frozen claims about them.

Modelling conventions:
* Python floats (times, delays, dollar costs) are modelled as exact
  rationals.
* Raising an exception is modelled with `Except` / explicit error sums.
* `time.time()` is modelled by an arbitrary reading stream
  `clock : Nat -> Rat`; each call of `time.time()` consumes the next
  reading.  `time.sleep` / `asyncio.sleep` only advance real time, so for
  safety properties it is sound to quantify over all monotone streams.
-/
import Mathlib

set_option autoImplicit false

/- The arithmetic of `Rat` is `@[irreducible]` by default, which blocks
`decide`/`rfl` evaluation of the embedded code on concrete inputs; restore
the natural reducibility for this development. -/
attribute [local semireducible] Rat.add Rat.mul Rat.inv Rat.sub

/-! ## Retry with exponential backoff (`api_helpers.py`, lines 56-166)

`retry_with_backoff` and `async_retry_with_backoff` have identical control
flow (the async variant merely awaits the wrapped call and the sleep), so a
single embedding covers both.  The wrapped callable is modelled as
`op : Nat -> Except E A` giving the outcome of each attempt; every raised
exception is assumed to be in `retryable_exceptions`, as in the claims.
`rand : Nat -> Rat` gives the value of `random.random()` drawn before the
sleep following each failed attempt. -/

/-- Outcome of a wrapped call: normal return, re-raised exception, or the
implicit `None` returned when the `for attempt in range(max_retries + 1)`
loop body never runs. -/
inductive ROut (E A : Type) where
  | ok (a : A)
  | err (e : E)
  | retNone
  deriving DecidableEq

/-- Result of one execution of the retry wrapper: the outcome, the number of
invocations of the wrapped callable, and the list of delays actually slept
between attempts (in order). -/
structure RetryResult (E A : Type) where
  out : ROut E A
  calls : Nat
  slept : List Rat
  deriving DecidableEq

/-- Lines 95-97: `actual_delay = delay * (0.5 + random.random())`. -/
def jitteredDelay (delay u : Rat) : Rat := delay * (1/2 + u)

/-- Lines 95-101: the delay actually passed to `time.sleep`, after optional
jitter and the `min(actual_delay, max_delay)` cap. -/
def actualDelay (jitter : Bool) (delay maxDelay u : Rat) : Rat :=
  min (if jitter then jitteredDelay delay u else delay) maxDelay

/-- The body of the wrapper (lines 82-110): iterate the remaining loop
iterations of `for attempt in range(max_retries + 1)`.  On success return
immediately; on failure re-raise when `attempt == max_retries`, otherwise
sleep the capped (optionally jittered) delay, multiply `delay` by
`exponential_base`, and continue. -/
def retryLoopFull {E A : Type} (maxRetries : Int) (maxDelay expBase : Rat) (jitter : Bool)
    (op : Nat → Except E A) (rand : Nat → Rat) : Nat → Rat → Nat → RetryResult E A
  | _, _, 0 => ⟨.retNone, 0, []⟩
  | attempt, delay, iters + 1 =>
    match op attempt with
    | .ok a => ⟨.ok a, 1, []⟩
    | .error e =>
      if (attempt : Int) = maxRetries then ⟨.err e, 1, []⟩
      else
        let d := actualDelay jitter delay maxDelay (rand attempt)
        let rest := retryLoopFull maxRetries maxDelay expBase jitter op rand
          (attempt + 1) (delay * expBase) iters
        ⟨rest.out, rest.calls + 1, d :: rest.slept⟩

/-- One call of the function wrapped by `retry_with_backoff(max_retries,
initial_delay, max_delay, exponential_base, jitter)` (equally
`async_retry_with_backoff`): `delay` starts at `initial_delay` and the loop
runs `range(max_retries + 1)`, i.e. `(maxRetries + 1).toNat` iterations. -/
def retryRun {E A : Type} (maxRetries : Int) (initialDelay maxDelay expBase : Rat)
    (jitter : Bool) (op : Nat → Except E A) (rand : Nat → Rat) : RetryResult E A :=
  retryLoopFull maxRetries maxDelay expBase jitter op rand 0 initialDelay
    (maxRetries + 1).toNat

/-- The pre-jitter nominal delay before attempt `k + 1`:
`initial_delay * exponential_base ^ k` (the spec formula `initial_delay * base^attempt`). -/
def nominalDelay (initialDelay expBase : Rat) (k : Nat) : Rat :=
  initialDelay * expBase ^ k

/-! ## Cost calculation (`cost_tracker.py`, lines 39-144) -/

/-- Lines 39-91: the static per-1K-token price table, in insertion order,
as (model name, prompt price, completion price). -/
def MODEL_PRICING : List (String × Rat × Rat) :=
  [("gpt-4", 3/100, 6/100),
   ("gpt-4-32k", 6/100, 12/100),
   ("gpt-4-turbo", 1/100, 3/100),
   ("gpt-4-turbo-preview", 1/100, 3/100),
   ("gpt-3.5-turbo", 5/10000, 15/10000),
   ("gpt-3.5-turbo-16k", 3/1000, 4/1000),
   ("text-embedding-3-small", 2/100000, 0),
   ("text-embedding-3-large", 13/100000, 0),
   ("text-embedding-ada-002", 1/10000, 0),
   ("davinci-002", 2/1000, 2/1000),
   ("babbage-002", 4/10000, 4/10000)]

/-- Whether the first character list is a prefix of the second. -/
def isPrefixList : List Char → List Char → Bool
  | [], _ => true
  | _ :: _, [] => false
  | a :: as, b :: bs => a == b && isPrefixList as bs

/-- The Python expression `needle in hay` on strings: contiguous substring containment. -/
def isSubstrList (needle : List Char) : List Char → Bool
  | [] => needle.isEmpty
  | b :: bs => isPrefixList needle (b :: bs) || isSubstrList needle bs

/-- Lines 130-139: `MODEL_PRICING.get(model)`, falling back to the first
table entry whose key occurs in `model` (in Python `model_name in model` is
substring containment), in table insertion order. -/
def lookupPricing (model : String) : Option (Rat × Rat) :=
  match MODEL_PRICING.find? (fun e => e.1 == model) with
  | some e => some e.2
  | none =>
    match MODEL_PRICING.find? (fun e => isSubstrList e.1.toList model.toList) with
    | some e => some e.2
    | none => none

/-- Lines 114-144: `calculate_cost`.  Returns the dollar cost, or the
`ValueError` message when the model is absent from the table. -/
def calculate_cost (prompt_tokens completion_tokens : Nat) (model : String) :
    Except String Rat :=
  match lookupPricing model with
  | some p =>
    .ok (((prompt_tokens : Rat) / 1000) * p.1 + ((completion_tokens : Rat) / 1000) * p.2)
  | none => .error ("Pricing not found for model: " ++ model)

/-- Follows the words of the SPEC, for comparison with `calculate_cost`: lookup
"by exact model name or first-matching price-table prefix of m". -/
def lookupPricingSpec (model : String) : Option (Rat × Rat) :=
  match MODEL_PRICING.find? (fun e => e.1 == model) with
  | some e => some e.2
  | none =>
    match MODEL_PRICING.find? (fun e => isPrefixList e.1.toList model.toList) with
    | some e => some e.2
    | none => none

/-- Follows the words of the SPEC, for comparison with `calculate_cost`. -/
def calculate_cost_spec (prompt_tokens completion_tokens : Nat) (model : String) :
    Except String Rat :=
  match lookupPricingSpec model with
  | some p =>
    .ok (((prompt_tokens : Rat) / 1000) * p.1 + ((completion_tokens : Rat) / 1000) * p.2)
  | none => .error ("Pricing not found for model: " ++ model)

/-! ## Cost tracker (`cost_tracker.py`, lines 167-338) -/

/-- One entry of `CostTracker.calls` (lines 202-210; the timestamp and
metadata fields carry no logic and are omitted). -/
structure CallData where
  model : String
  prompt_tokens : Nat
  completion_tokens : Nat
  total_tokens : Nat
  cost : Rat
  deriving DecidableEq

/-- The two exceptions `track_tokens` can raise: the `ValueError` from
`calculate_cost` and the distinct `CostLimitExceeded` from
`_check_thresholds`. -/
inductive TrackError where
  | pricingNotFound
  | costLimitExceeded
  deriving DecidableEq

/-- Lines 241-243: `get_total_cost`, the sum of the recorded costs. -/
def get_total_cost (calls : List CallData) : Rat :=
  (calls.map (fun c => c.cost)).sum

/-- Lines 245-247: `get_total_tokens`. -/
def get_total_tokens (calls : List CallData) : Nat :=
  (calls.map (fun c => c.total_tokens)).sum

/-- Lines 181-217 with lines 325-338 inlined: `track_tokens`.  Computes the
cost (propagating the pricing `ValueError` before any mutation), appends the
record, then checks thresholds on the new total: at or above `maxThr` it
raises `CostLimitExceeded` (the record stays appended), otherwise it returns
the cost together with whether the warning was printed
(`warnThr <= total`).  The thresholds are the environment values read by
`_check_thresholds` at call time. -/
def track_tokens (warnThr maxThr : Rat) (calls : List CallData) (p c : Nat) (m : String) :
    List CallData × Except TrackError (Rat × Bool) :=
  match calculate_cost p c m with
  | .error _ => (calls, .error .pricingNotFound)
  | .ok cost =>
    let calls2 := calls ++ [⟨m, p, c, p + c, cost⟩]
    if maxThr ≤ get_total_cost calls2 then (calls2, .error .costLimitExceeded)
    else (calls2, .ok (cost, decide (warnThr ≤ get_total_cost calls2)))

/-- A sequence of `track_tokens` calls against one tracker, starting from the
given call list; stops at the first raised exception (which aborts the
sequence in Python), returning the final call list and the error if any. -/
def runTracker (warnThr maxThr : Rat) : List (Nat × Nat × String) → List CallData →
    List CallData × Option TrackError
  | [], calls => (calls, none)
  | r :: rs, calls =>
    match track_tokens warnThr maxThr calls r.1 r.2.1 r.2.2 with
    | (calls2, .error e) => (calls2, some e)
    | (calls2, .ok _) => runTracker warnThr maxThr rs calls2

/-- Rounding of `round(x, 4)` (line 288) on exact rationals: round half to
even at four decimal places. -/
def rhe (x : Rat) : Int :=
  if x - Int.floor x < 1/2 then Int.floor x
  else if 1/2 < x - Int.floor x then Int.floor x + 1
  else if (Int.floor x) % 2 = 0 then Int.floor x else Int.floor x + 1

/-- Python `round(total_cost, 4)` as used at line 288. -/
def round4 (x : Rat) : Rat := (rhe (x * 10000) : Rat) / 10000

/-- One cell of the by-model update (lines 269-280): find the entry of the model
and bump calls / cost / tokens, or append a fresh entry at the end, giving
dict insertion order by first appearance. -/
def updateByModel (acc : List (String × Nat × Rat × Nat)) (cd : CallData) :
    List (String × Nat × Rat × Nat) :=
  match acc with
  | [] => [(cd.model, 1, cd.cost, cd.total_tokens)]
  | e :: rest =>
    if e.1 = cd.model then
      (e.1, e.2.1 + 1, e.2.2.1 + cd.cost, e.2.2.2 + cd.total_tokens) :: rest
    else e :: updateByModel rest cd

/-- Lines 269-280: the `by_model` grouping of `get_session_report`. -/
def groupByModel (calls : List CallData) : List (String × Nat × Rat × Nat) :=
  calls.foldl updateByModel []

/-- Sum of the `cost` fields of a by-model breakdown. -/
def sumModelCosts (l : List (String × Nat × Rat × Nat)) : Rat :=
  (l.map (fun e => e.2.2.1)).sum

/-- Sum of the `tokens` fields of a by-model breakdown. -/
def sumModelTokens (l : List (String × Nat × Rat × Nat)) : Nat :=
  (l.map (fun e => e.2.2.2)).sum

/-- The fields of the dictionary returned by `get_session_report`
(lines 249-292) that carry logic; session name, times and the raw call list
are omitted.  For an empty call list Python returns a dictionary without a
`by_model` key, modelled as the empty breakdown. -/
structure SessionReport where
  total_calls : Nat
  total_cost : Rat
  total_tokens : Nat
  by_model : List (String × Nat × Rat × Nat)
  deriving DecidableEq

/-- Lines 249-292: `get_session_report`; `total_cost` is rounded to four
decimal places, the breakdown costs are not. -/
def get_session_report (calls : List CallData) : SessionReport :=
  if calls = [] then ⟨0, 0, 0, []⟩
  else ⟨calls.length, round4 (get_total_cost calls), get_total_tokens calls,
    groupByModel calls⟩

/-! ## Sliding-window rate limiter (`api_helpers.py`, lines 169-294)

`RateLimiter.acquire` (sync) and `AsyncRateLimiter.acquire` have the same
single-caller logic: read `now = time.time()`, pop recorded timestamps older
than `now - time_window`, and if the remaining count reaches `max_requests`
and the oldest timestamp is still strictly inside the window, sleep until it
would leave and retry; otherwise append a fresh `time.time()` reading.
(The retry path of the async variant re-awaits `acquire` while holding its
non-reentrant `asyncio.Lock`; the model treats that re-entry as if it
proceeded, which is the generous reading for safety claims.)

The model threads the position `i` into the reading stream `clock`; the
retry recursion is bounded by `fuel`, and `none` stands for an execution
that is still waiting when the fuel runs out (no admission happens there,
so discarding those runs is sound for the windowing invariant).  Alongside
the live deque `reqs` the model keeps `log`, the full list of timestamps
ever recorded, which the claims quantify over. -/

/-- Lines 206-207: the pruning `while` loop; pops from the front while the
head is strictly older than `now - W`. -/
def pruneReqs (W now : Rat) : List Rat → List Rat
  | [] => []
  | t :: ts => if t < now - W then pruneReqs W now ts else t :: ts

/-- Membership of a timestamp in the trailing closed window `[T - W, T]`
(the notion used by the pruning loop: a timestamp exactly `W` old is kept). -/
def inWindow (W T t : Rat) : Bool := decide (T - W ≤ t) && decide (t ≤ T)

/-- Membership in the trailing half-open window `(T - W, T]`. -/
def inWindowO (W T t : Rat) : Bool := decide (T - W < t) && decide (t ≤ T)

/-- Lines 201-222 / 262-285: one `acquire` call.  State: live deque `reqs`,
full admission log `log`, next clock position `i`. -/
def acquireAux (N : Nat) (W : Rat) (clock : Nat → Rat) :
    Nat → List Rat → List Rat → Nat → Option (List Rat × List Rat × Nat)
  | 0, _, _, _ => none
  | fuel + 1, reqs, log, i =>
    let now := clock i
    let reqs2 := pruneReqs W now reqs
    if N ≤ reqs2.length ∧ 0 < W - (now - reqs2.headI) then
      acquireAux N W clock fuel reqs2 log (i + 1)
    else
      some (reqs2 ++ [clock (i + 1)], log ++ [clock (i + 1)], i + 2)

/-- Run `k` sequential `acquire` calls on a freshly constructed limiter. -/
def rateLimiterRun (N : Nat) (W : Rat) (clock : Nat → Rat) (fuel : Nat) :
    Nat → Option (List Rat × List Rat × Nat)
  | 0 => some ([], [], 0)
  | k + 1 =>
    match rateLimiterRun N W clock fuel k with
    | none => none
    | some (reqs, log, i) => acquireAux N W clock fuel reqs log i

/-! ### Interleaved concurrent model of the threaded `RateLimiter`

`RateLimiter` (lines 185-231) holds no lock, so under threads the
check phase (lines 203-219) and the record phase (line 222) of two callers
can interleave.  Each thread is a two-phase program; a schedule says which
thread runs its next atomic phase.  This has fewer interleaving points than
CPython offers, so every behaviour it exhibits is a real one. -/

/-- Program counter of one thread running `RateLimiter.acquire`. -/
inductive TPc where
  | check
  | append
  | done
  deriving DecidableEq

/-- Shared state of the interleaved execution: the (unprotected) deque and
the next clock position, plus the program counter of each thread. -/
structure ConcState where
  reqs : List Rat
  pc1 : TPc
  pc2 : TPc
  idx : Nat
  deriving DecidableEq

/-- One atomic phase of `RateLimiter.acquire`: the check phase reads the
clock, prunes and either proceeds to record or goes back to sleep/retry;
the record phase appends a fresh clock reading. -/
def blockStep (N : Nat) (W : Rat) (clock : Nat → Rat) (reqs : List Rat) (i : Nat) :
    TPc → TPc × List Rat × Nat
  | .check =>
    let now := clock i
    let r := pruneReqs W now reqs
    if N ≤ r.length ∧ 0 < W - (now - r.headI) then (.check, r, i + 1)
    else (.append, r, i + 1)
  | .append => (.done, reqs ++ [clock i], i + 1)
  | .done => (.done, reqs, i)

/-- Run the scheduled thread (`false` = thread 1, `true` = thread 2) for one
atomic phase. -/
def concStep (N : Nat) (W : Rat) (clock : Nat → Rat) (s : ConcState) (tid : Bool) :
    ConcState :=
  if tid then
    match blockStep N W clock s.reqs s.idx s.pc2 with
    | (pc, r, i) => ⟨r, s.pc1, pc, i⟩
  else
    match blockStep N W clock s.reqs s.idx s.pc1 with
    | (pc, r, i) => ⟨r, pc, s.pc2, i⟩

/-- Run a schedule of atomic phases from a state. -/
def concRun (N : Nat) (W : Rat) (clock : Nat → Rat) (sched : List Bool)
    (s : ConcState) : ConcState :=
  sched.foldl (concStep N W clock) s

/-- Two threads about to call `acquire` on a fresh limiter. -/
def concInit : ConcState := ⟨[], .check, .check, 0⟩

/-! ## Helper lemmas for the retry wrapper -/

theorem retryLoop_all_fail {E A : Type} (r : Nat) (mdel base : Rat) (jit : Bool)
    (op : Nat → Except E A) (rand : Nat → Rat) (errs : Nat → E)
    (hop : ∀ k, op k = .error (errs k)) :
    ∀ iters attempt delay, 1 ≤ iters → attempt + iters = r + 1 →
      (retryLoopFull (r : Int) mdel base jit op rand attempt delay iters).out
          = .err (errs r) ∧
      (retryLoopFull (r : Int) mdel base jit op rand attempt delay iters).calls = iters := by
  intro iters
  induction iters with
  | zero => intro attempt delay h1 _; omega
  | succ n ih =>
    intro attempt delay _ hsum
    simp only [retryLoopFull, hop attempt]
    by_cases hat : attempt = r
    · have hn : n = 0 := by omega
      subst hat; subst hn
      simp
    · have hcast : ¬ ((attempt : Int) = (r : Int)) := by exact_mod_cast hat
      rw [if_neg hcast]
      have h1 : 1 ≤ n := by omega
      have h2 : (attempt + 1) + n = r + 1 := by omega
      obtain ⟨o2, c2⟩ := ih (attempt + 1) (delay * base) h1 h2
      exact ⟨o2, by simp only [c2]⟩

theorem retryLoop_first_ok {E A : Type} (mr : Int) (mdel base : Rat) (jit : Bool)
    (op : Nat → Except E A) (rand : Nat → Rat) (errs : Nat → E) (s : Nat) (a : A)
    (hops : op s = .ok a) :
    ∀ iters attempt delay, attempt ≤ s → s < attempt + iters →
      (∀ j, attempt ≤ j → j < s → op j = .error (errs j)) →
      (∀ j, attempt ≤ j → j < s → (j : Int) ≠ mr) →
      (retryLoopFull mr mdel base jit op rand attempt delay iters).out = .ok a ∧
      (retryLoopFull mr mdel base jit op rand attempt delay iters).calls
          = s - attempt + 1 := by
  intro iters
  induction iters with
  | zero => intro attempt delay h1 h2 _ _; omega
  | succ n ih =>
    intro attempt delay hle hlt herr hnmr
    by_cases hat : attempt = s
    · subst hat
      simp only [retryLoopFull, hops]
      simp
    · have hlt2 : attempt < s := by omega
      simp only [retryLoopFull, herr attempt le_rfl hlt2,
        if_neg (hnmr attempt le_rfl hlt2)]
      obtain ⟨o2, c2⟩ := ih (attempt + 1) (delay * base) (by omega) (by omega)
        (fun j hj1 hj2 => herr j (by omega) hj2)
        (fun j hj1 hj2 => hnmr j (by omega) hj2)
      refine ⟨o2, ?_⟩
      show (retryLoopFull mr mdel base jit op rand (attempt + 1) (delay * base) n).calls
          + 1 = s - attempt + 1
      omega

theorem retryLoop_slept_le {E A : Type} (mr : Int) (mdel base : Rat) (jit : Bool)
    (op : Nat → Except E A) (rand : Nat → Rat) :
    ∀ iters attempt delay d,
      d ∈ (retryLoopFull mr mdel base jit op rand attempt delay iters).slept →
      d ≤ mdel := by
  intro iters
  induction iters with
  | zero => intro attempt delay d hd; simp [retryLoopFull] at hd
  | succ n ih =>
    intro attempt delay d hd
    cases hop : op attempt with
    | ok a => simp only [retryLoopFull, hop] at hd; simp at hd
    | error e =>
      simp only [retryLoopFull, hop] at hd
      by_cases hat : (attempt : Int) = mr
      · rw [if_pos hat] at hd
        simp at hd
      · rw [if_neg hat] at hd
        simp only [List.mem_cons] at hd
        rcases hd with hd | hd
        · rw [hd]; exact min_le_right _ _
        · exact ih (attempt + 1) (delay * base) d hd

/-! ## Claims C2, C3, C4, C10: the retry wrapper -/

/-- Claim C2 (confirmed): with `max_retries = r`, a wrapped function failing
on every attempt with a retryable exception is invoked exactly `r + 1` times
and the wrapper re-raises the exception of the final attempt; one that first
succeeds on (0-indexed) attempt `s ≤ r`, i.e. on the `s + 1`-st invocation,
is invoked exactly `s + 1` times and its result is returned. -/
theorem retry_invocation_count {E A : Type} (r : Nat) (idel mdel base : Rat)
    (jit : Bool) (op : Nat → Except E A) (rand : Nat → Rat) (errs : Nat → E) :
    ((∀ k, op k = .error (errs k)) →
      (retryRun (r : Int) idel mdel base jit op rand).out = .err (errs r) ∧
      (retryRun (r : Int) idel mdel base jit op rand).calls = r + 1) ∧
    (∀ (s : Nat) (a : A), s ≤ r → (∀ j, j < s → op j = .error (errs j)) →
      op s = .ok a →
      (retryRun (r : Int) idel mdel base jit op rand).out = .ok a ∧
      (retryRun (r : Int) idel mdel base jit op rand).calls = s + 1) := by
  have htn : ((r : Int) + 1).toNat = r + 1 := by omega
  constructor
  · intro hop
    have := retryLoop_all_fail r mdel base jit op rand errs hop (r + 1) 0 idel
      (by omega) (by omega)
    rw [retryRun, htn]
    exact this
  · intro s a hs herr hok
    have := retryLoop_first_ok (r : Int) mdel base jit op rand errs s a hok
      (r + 1) 0 idel (by omega) (by omega)
      (fun j _ hj => herr j hj)
      (fun j _ hj => by exact_mod_cast (by omega : j ≠ r))
    rw [retryRun, htn]
    simpa using this

/-- Witness for C2 at `r = 1`: a function failing on both attempts is called
twice and the second error is re-raised; a function succeeding at once is
called once. -/
theorem retry_invocation_count_witness :
    ((retryRun (1 : Int) 1 60 2 true (fun k => (Except.error k : Except Nat Unit))
        (fun _ => 0)).out = .err 1 ∧
      (retryRun (1 : Int) 1 60 2 true (fun k => (Except.error k : Except Nat Unit))
        (fun _ => 0)).calls = 2) ∧
    ((retryRun (1 : Int) 1 60 2 true (fun _ => (Except.ok () : Except Nat Unit))
        (fun _ => 0)).out = .ok () ∧
      (retryRun (1 : Int) 1 60 2 true (fun _ => (Except.ok () : Except Nat Unit))
        (fun _ => 0)).calls = 1) := by
  constructor
  · exact (retry_invocation_count 1 1 60 2 true _ (fun _ => 0) (fun k => k)).1
      (fun k => rfl)
  · exact (retry_invocation_count 1 1 60 2 true _ (fun _ => 0) (fun k => k)).2
      0 () (by omega) (fun j hj => by omega) rfl

/-- Claim C10 (confirmed): for `max_retries < 0` the loop
`for attempt in range(max_retries + 1)` never runs, so the wrapper returns
`None` without invoking the wrapped function and without raising. -/
theorem retry_negative_max_retries {E A : Type} (r : Int) (hr : r < 0)
    (idel mdel base : Rat) (jit : Bool) (op : Nat → Except E A) (rand : Nat → Rat) :
    retryRun r idel mdel base jit op rand = ⟨.retNone, 0, []⟩ := by
  have htn : (r + 1).toNat = 0 := by omega
  rw [retryRun, htn, retryLoopFull]

/-- Witness for C10 at `max_retries = -1`. -/
theorem retry_negative_max_retries_witness :
    retryRun (-1) 1 60 2 true (fun _ => (Except.ok () : Except Nat Unit))
      (fun _ => 0) = ⟨.retNone, 0, []⟩ :=
  retry_negative_max_retries (-1) (by norm_num) 1 60 2 true _ _

/-- Claim C3 counterexample: with the possible draw `random.random() = 3/4`
the slept delay is `5/4` of the nominal delay `1`, and no jitter factor in
`[0.5, 1.0]` accounts for it: the factor in the code is `0.5 + random.random()`,
which exceeds `1` whenever the draw exceeds `0.5`. -/
theorem retry_jitter_factor_cex :
    (retryRun 1 1 60 2 true (fun k => (Except.error k : Except Nat Unit))
      (fun _ => 3/4)).slept = [5/4] ∧
    (0 : Rat) ≤ 3/4 ∧ (3/4 : Rat) < 1 ∧
    ¬ ∃ f : Rat, (1/2 ≤ f ∧ f ≤ 1) ∧ jitteredDelay 1 (3/4) = 1 * f := by
  have h2 : ((1 : Int) + 1).toNat = 2 := rfl
  refine ⟨?_, by norm_num, by norm_num, ?_⟩
  · rw [retryRun, h2]
    norm_num [retryLoopFull, actualDelay, jitteredDelay, min_def]
  · rintro ⟨f, ⟨h1, h2⟩, heq⟩
    rw [jitteredDelay] at heq
    norm_num at heq
    rw [← heq] at h2
    norm_num at h2

/-- Claim C3 (amended): the randomized delay equals the nominal delay times
the factor `0.5 + random.random()`, which lies in `[0.5, 1.5)` for every
possible draw; the slept value is that product capped at `max_delay`. -/
theorem retry_jitter_factor_range (delay mdel u : Rat) (h0 : 0 ≤ u) (h1 : u < 1) :
    ∃ f : Rat, 1/2 ≤ f ∧ f < 3/2 ∧ jitteredDelay delay u = delay * f ∧
      actualDelay true delay mdel u = min (delay * f) mdel :=
  ⟨1/2 + u, by linarith, by linarith, rfl, rfl⟩

/-- Witness for the amended C3 at `delay = 2`, `max_delay = 60`, draw `1/2`. -/
theorem retry_jitter_factor_range_witness :
    ∃ f : Rat, 1/2 ≤ f ∧ f < 3/2 ∧ jitteredDelay 2 (1/2) = 2 * f ∧
      actualDelay true 2 60 (1/2) = min (2 * f) 60 :=
  retry_jitter_factor_range 2 60 (1/2) (by norm_num) (by norm_num)

/-- Claim C4 counterexample: with `exponential_base = 1/2` (a legal
configuration) and jitter off, an always-failing run sleeps `1` then `1/2`:
the pre-jitter nominal delay sequence is strictly decreasing, refuting
"non-decreasing for every configuration". -/
theorem retry_delay_decreasing_cex :
    (retryRun 2 1 100 (1/2) false (fun k => (Except.error k : Except Nat Unit))
      (fun _ => 0)).slept = [1, 1/2] ∧
    nominalDelay 1 (1/2) 0 = 1 ∧ nominalDelay 1 (1/2) 1 = 1/2 ∧
    ¬ nominalDelay 1 (1/2) 0 ≤ nominalDelay 1 (1/2) 1 := by
  have h3 : ((2 : Int) + 1).toNat = 3 := rfl
  refine ⟨?_, by norm_num [nominalDelay], by norm_num [nominalDelay], ?_⟩
  · rw [retryRun, h3]
    norm_num [retryLoopFull, actualDelay, jitteredDelay, min_def]
  · norm_num [nominalDelay]

/-- Claim C4 (amended): when `exponential_base ≥ 1` and `initial_delay ≥ 0`
(in particular for the defaults) the pre-jitter nominal delay sequence
`initial_delay * base ^ k` is non-decreasing; and unconditionally every
delay actually slept by a run is capped at `max_delay`. -/
theorem retry_delay_monotone_bounded {E A : Type} (idel base : Rat)
    (h1 : 1 ≤ base) (h0 : 0 ≤ idel) (mr : Int) (mdel : Rat) (jit : Bool)
    (op : Nat → Except E A) (rand : Nat → Rat) :
    (∀ k, nominalDelay idel base k ≤ nominalDelay idel base (k + 1)) ∧
    (∀ d ∈ (retryRun mr idel mdel base jit op rand).slept, d ≤ mdel) := by
  constructor
  · intro k
    unfold nominalDelay
    have hpow : base ^ k ≤ base ^ (k + 1) := pow_le_pow_right₀ h1 (Nat.le_succ k)
    exact mul_le_mul_of_nonneg_left hpow h0
  · intro d hd
    exact retryLoop_slept_le mr mdel base jit op rand _ 0 idel d hd

/-- Witness for the amended C4 with the default configuration
(`initial_delay = 1`, `base = 2`, `max_delay = 60`) on an always-failing
run: the first two nominal delays are ordered and each slept delay is at
most `60`. -/
theorem retry_delay_monotone_bounded_witness :
    nominalDelay 1 2 0 ≤ nominalDelay 1 2 1 ∧
    (∀ d ∈ (retryRun 3 1 60 2 false (fun k => (Except.error k : Except Nat Unit))
      (fun _ => 0)).slept, d ≤ 60) :=
  ⟨(retry_delay_monotone_bounded 1 2 (by norm_num) (by norm_num) 3 60 false
      (fun k => (Except.error k : Except Nat Unit)) (fun _ => 0)).1 0,
   (retry_delay_monotone_bounded 1 2 (by norm_num) (by norm_num) 3 60 false
      (fun k => (Except.error k : Except Nat Unit)) (fun _ => 0)).2⟩

/-! ## Claim C5: cost lookup -/

/-- Claim C5 (amended): `calculate_cost p c m` returns
`(p/1000)*price_prompt + (c/1000)*price_completion` for the entry found by
exact match of `m`, or failing that for the first table entry (in insertion
order) whose key is a SUBSTRING of `m` — not a prefix of `m`, as the spec
put it — and raises a `ValueError` when neither matches. -/
theorem calculate_cost_characterization (p c : Nat) (m : String) :
    (∀ e, MODEL_PRICING.find? (fun x => x.1 == m) = some e →
      calculate_cost p c m =
        .ok (((p : Rat) / 1000) * e.2.1 + ((c : Rat) / 1000) * e.2.2)) ∧
    (MODEL_PRICING.find? (fun x => x.1 == m) = none →
      ∀ e, MODEL_PRICING.find? (fun x => isSubstrList x.1.toList m.toList) = some e →
      calculate_cost p c m =
        .ok (((p : Rat) / 1000) * e.2.1 + ((c : Rat) / 1000) * e.2.2)) ∧
    (MODEL_PRICING.find? (fun x => x.1 == m) = none →
      MODEL_PRICING.find? (fun x => isSubstrList x.1.toList m.toList) = none →
      calculate_cost p c m = .error ("Pricing not found for model: " ++ m)) := by
  refine ⟨?_, ?_, ?_⟩
  · intro e he
    rw [calculate_cost, lookupPricing, he]
  · intro h1 e he
    rw [calculate_cost, lookupPricing, h1, he]
  · intro h1 h2
    rw [calculate_cost, lookupPricing, h1, h2]

/-- Witness for C5 (amended) at the exactly-matched model "gpt-4". -/
theorem calculate_cost_characterization_witness :
    calculate_cost 1000 2000 "gpt-4" =
      .ok (((1000 : Rat) / 1000) * (3/100) + ((2000 : Rat) / 1000) * (6/100)) :=
  (calculate_cost_characterization 1000 2000 "gpt-4").1 ("gpt-4", 3/100, 6/100)
    (by decide)

/-- Claim C5 counterexample: no price-table key is a prefix of
"custom-gpt-4", so the prefix rule of the spec gives a lookup error, but the
substring fallback of the code matches the key "gpt-4" and returns its prices. -/
theorem calculate_cost_substring_cex :
    calculate_cost 1000 1000 "custom-gpt-4" = .ok (9/100) ∧
    calculate_cost_spec 1000 1000 "custom-gpt-4" =
      .error ("Pricing not found for model: custom-gpt-4") := by
  constructor <;> rfl

/-! ## Claim C8: cost thresholds -/

/-- Claim C8 (confirmed): when recording a call brings the session total to
or above the hard threshold, the record is appended first (and remains in
the call list) and then the distinct `CostLimitExceeded` is raised; when the
new total is below the hard threshold but at or above the warning threshold,
the call succeeds and only the warning is printed. -/
theorem track_threshold_behavior (wT mT : Rat) (calls : List CallData) (p c : Nat)
    (m : String) (cost : Rat) (hcost : calculate_cost p c m = .ok cost) :
    (mT ≤ get_total_cost (calls ++ [⟨m, p, c, p + c, cost⟩]) →
      track_tokens wT mT calls p c m =
        (calls ++ [⟨m, p, c, p + c, cost⟩], .error .costLimitExceeded)) ∧
    (get_total_cost (calls ++ [⟨m, p, c, p + c, cost⟩]) < mT →
      wT ≤ get_total_cost (calls ++ [⟨m, p, c, p + c, cost⟩]) →
      track_tokens wT mT calls p c m =
        (calls ++ [⟨m, p, c, p + c, cost⟩], .ok (cost, true))) := by
  constructor
  · intro hmax
    simp only [track_tokens, hcost]
    rw [if_pos hmax]
  · intro hlt hwarn
    simp only [track_tokens, hcost]
    rw [if_neg (not_le.mpr hlt), decide_eq_true hwarn]

/-- Witness for C8: a 2,000,000-prompt-token gpt-4 call costs 60, crossing
the default hard threshold 50; the record is kept and the limit raised. -/
theorem track_threshold_behavior_witness :
    track_tokens 10 50 [] 2000000 0 "gpt-4" =
      ([⟨"gpt-4", 2000000, 0, 2000000 + 0, 60⟩], .error .costLimitExceeded) :=
  (track_threshold_behavior 10 50 [] 2000000 0 "gpt-4" 60 (by rfl)).1
    (by norm_num [get_total_cost])

/-! ## Claim C6: additivity and insertion order of the tracker -/

theorem get_total_cost_append (l : List CallData) (cd : CallData) :
    get_total_cost (l ++ [cd]) = get_total_cost l + cd.cost := by
  simp [get_total_cost]

theorem get_total_tokens_append (l : List CallData) (cd : CallData) :
    get_total_tokens (l ++ [cd]) = get_total_tokens l + cd.total_tokens := by
  simp [get_total_tokens]

theorem runTracker_spec (wT mT : Rat) :
    ∀ (reqs : List (Nat × Nat × String)) (acc calls : List CallData),
      runTracker wT mT reqs acc = (calls, none) →
      ∃ cs : List Rat,
        reqs.map (fun r => calculate_cost r.1 r.2.1 r.2.2) = cs.map Except.ok ∧
        get_total_cost calls = get_total_cost acc + cs.sum ∧
        get_total_tokens calls
            = get_total_tokens acc + (reqs.map (fun r => r.1 + r.2.1)).sum ∧
        calls.map (fun cd => (cd.prompt_tokens, cd.completion_tokens, cd.model)) =
          acc.map (fun cd => (cd.prompt_tokens, cd.completion_tokens, cd.model))
            ++ reqs := by
  intro reqs
  induction reqs with
  | nil =>
    intro acc calls h
    rw [runTracker] at h
    injection h with h1 h2
    subst h1
    exact ⟨[], by simp, by simp, by simp, by simp⟩
  | cons r rs ih =>
    intro acc calls h
    obtain ⟨p, c, m⟩ := r
    rw [runTracker] at h
    cases hc : calculate_cost p c m with
    | error e =>
      rw [track_tokens] at h
      simp only [hc] at h
      simp at h
    | ok cost =>
      simp only [track_tokens, hc] at h
      by_cases hmax : mT ≤ get_total_cost (acc ++ [⟨m, p, c, p + c, cost⟩])
      · rw [if_pos hmax] at h
        simp at h
      · rw [if_neg hmax] at h
        obtain ⟨cs, h1, h2, h3, h4⟩ :=
          ih (acc ++ [⟨m, p, c, p + c, cost⟩]) calls h
        refine ⟨cost :: cs, ?_, ?_, ?_, ?_⟩
        · simp [hc, h1]
        · rw [h2, get_total_cost_append]
          simp
          ring
        · rw [h3, get_total_tokens_append]
          simp
          ring
        · rw [h4]
          simp

/-- Claim C6 (confirmed): a sequence of `track_tokens` calls that completes
without a limit error yields `get_total_cost` equal to the sum of the
individually computed per-call costs, total tokens equal to the summed
per-call token counts, and a call list in insertion order. -/
theorem tracker_additive_order (wT mT : Rat) (reqs : List (Nat × Nat × String))
    (calls : List CallData) (h : runTracker wT mT reqs [] = (calls, none)) :
    ∃ cs : List Rat,
      reqs.map (fun r => calculate_cost r.1 r.2.1 r.2.2) = cs.map Except.ok ∧
      get_total_cost calls = cs.sum ∧
      get_total_tokens calls = (reqs.map (fun r => r.1 + r.2.1)).sum ∧
      calls.map (fun cd => (cd.prompt_tokens, cd.completion_tokens, cd.model))
          = reqs := by
  obtain ⟨cs, h1, h2, h3, h4⟩ := runTracker_spec wT mT reqs [] calls h
  refine ⟨cs, h1, ?_, ?_, ?_⟩
  · simpa [get_total_cost] using h2
  · simpa [get_total_tokens] using h3
  · simpa using h4

/-- The call list produced by the two-call example from the spec. -/
def exampleCalls : List CallData :=
  [⟨"gpt-3.5-turbo", 100, 200, 300, 7/20000⟩,
   ⟨"gpt-3.5-turbo", 50, 100, 150, 7/40000⟩]

/-- Witness for C6: the example from the spec — tracking (100, 200) then (50, 100)
on gpt-3.5-turbo gives total cost `cost(100,200) + cost(50,100) =
7/20000 + 7/40000` and 450 total tokens, with records in order. -/
theorem tracker_additive_order_witness :
    ∃ cs : List Rat,
      ([((100 : Nat), (200 : Nat), "gpt-3.5-turbo"), (50, 100, "gpt-3.5-turbo")].map
        (fun r => calculate_cost r.1 r.2.1 r.2.2)) = cs.map Except.ok ∧
      get_total_cost exampleCalls = cs.sum ∧
      get_total_tokens exampleCalls
          = ([((100 : Nat), (200 : Nat), "gpt-3.5-turbo"),
              (50, 100, "gpt-3.5-turbo")].map (fun r => r.1 + r.2.1)).sum ∧
      exampleCalls.map (fun cd => (cd.prompt_tokens, cd.completion_tokens, cd.model))
          = [((100 : Nat), (200 : Nat), "gpt-3.5-turbo"), (50, 100, "gpt-3.5-turbo")] :=
  tracker_additive_order 10 50 _ exampleCalls (by rfl)

/-! ## Claim C7: session report breakdown -/

theorem sumModelCosts_update (acc : List (String × Nat × Rat × Nat)) (cd : CallData) :
    sumModelCosts (updateByModel acc cd) = sumModelCosts acc + cd.cost := by
  induction acc with
  | nil => simp [updateByModel, sumModelCosts]
  | cons e rest ih =>
    simp only [updateByModel]
    by_cases h : e.1 = cd.model
    · rw [if_pos h]
      simp [sumModelCosts]
      ring
    · rw [if_neg h]
      simp only [sumModelCosts, List.map_cons, List.sum_cons] at ih ⊢
      rw [ih]
      ring

theorem sumModelTokens_update (acc : List (String × Nat × Rat × Nat)) (cd : CallData) :
    sumModelTokens (updateByModel acc cd) = sumModelTokens acc + cd.total_tokens := by
  induction acc with
  | nil => simp [updateByModel, sumModelTokens]
  | cons e rest ih =>
    simp only [updateByModel]
    by_cases h : e.1 = cd.model
    · rw [if_pos h]
      simp [sumModelTokens]
      omega
    · rw [if_neg h]
      simp only [sumModelTokens, List.map_cons, List.sum_cons] at ih ⊢
      omega

theorem sumModelCosts_foldl (calls : List CallData) :
    ∀ acc, sumModelCosts (calls.foldl updateByModel acc)
        = sumModelCosts acc + get_total_cost calls := by
  induction calls with
  | nil => intro acc; simp [get_total_cost]
  | cons cd rest ih =>
    intro acc
    rw [List.foldl_cons, ih (updateByModel acc cd), sumModelCosts_update]
    simp [get_total_cost]
    ring

theorem sumModelTokens_foldl (calls : List CallData) :
    ∀ acc, sumModelTokens (calls.foldl updateByModel acc)
        = sumModelTokens acc + get_total_tokens calls := by
  induction calls with
  | nil => intro acc; simp [get_total_tokens]
  | cons cd rest ih =>
    intro acc
    rw [List.foldl_cons, ih (updateByModel acc cd), sumModelTokens_update]
    simp [get_total_tokens]
    omega

/-- Claim C7 (amended): the per-model breakdown of the session report sums,
by cost, to the UNROUNDED session total `get_total_cost` and, by token
count, to the `total_tokens` field of the report; the `total_cost` field
is the session total rounded to four decimal places, which can differ
from the cost sum of the breakdown. -/
theorem session_breakdown_sums (calls : List CallData) :
    sumModelCosts ((get_session_report calls).by_model) = get_total_cost calls ∧
    sumModelTokens ((get_session_report calls).by_model)
        = (get_session_report calls).total_tokens ∧
    (get_session_report calls).total_cost = round4 (get_total_cost calls) := by
  by_cases h : calls = []
  · subst h
    refine ⟨by simp [get_session_report, sumModelCosts, get_total_cost],
            by simp [get_session_report, sumModelTokens], ?_⟩
    have h0 : get_total_cost [] = 0 := by simp [get_total_cost]
    rw [get_session_report, if_pos rfl, h0]
    show (0 : Rat) = round4 0
    norm_num [round4, rhe]
  · rw [get_session_report, if_neg h]
    refine ⟨?_, ?_, rfl⟩
    · show sumModelCosts (groupByModel calls) = get_total_cost calls
      rw [groupByModel, sumModelCosts_foldl]
      simp [sumModelCosts]
    · show sumModelTokens (groupByModel calls) = get_total_tokens calls
      rw [groupByModel, sumModelTokens_foldl]
      simp [sumModelTokens]

/-- Claim C7 counterexample: one tracked call of 100 prompt tokens on
"text-embedding-3-small" costs 1/500000; the by-model costs of the report sum to
1/500000, but the global `total_cost` of the report is `round(., 4) = 0`, so the
breakdown does NOT sum to the reported global cost. -/
theorem session_rounding_cex :
    (track_tokens 10 50 [] 100 0 "text-embedding-3-small").1 =
      [⟨"text-embedding-3-small", 100, 0, 100 + 0, 1/500000⟩] ∧
    sumModelCosts ((get_session_report
      [⟨"text-embedding-3-small", 100, 0, 100 + 0, 1/500000⟩]).by_model)
        = 1/500000 ∧
    (get_session_report
      [⟨"text-embedding-3-small", 100, 0, 100 + 0, 1/500000⟩]).total_cost = 0 ∧
    (1/500000 : Rat) ≠ 0 := by
  refine ⟨by decide, by decide, by decide, by norm_num⟩

/-! ## Claim C9: concurrency of the threaded rate limiter -/

/-- Claim C9 counterexample: `RateLimiter` holds no mutex, so with
`max_requests = 1` two threads can interleave their check and record
phases: both see an empty deque, both are admitted at time 0, and the
window ending at 0 holds 2 > 1 admissions — the claimed serialization via
"a mutex in the threaded RateLimiter" does not exist in the code. -/
theorem rateLimiter_race_cex :
    concRun 1 1 (fun _ => 0) [false, true, false, true] concInit =
      ⟨[0, 0], .done, .done, 4⟩ ∧
    1 < List.countP (inWindow 1 0) [(0 : Rat), 0] := by
  constructor <;> decide

/-- Claim C9 (amended): only `AsyncRateLimiter` guards its admission
sequence (with an `asyncio.Lock`); the threaded `RateLimiter` performs no
locking, and an unserialized test-then-set interleaving of two concurrent
`acquire` calls can admit more than `max_requests` requests inside one
window of length `time_window`. -/
theorem rateLimiter_race_possible :
    ∃ (clock : Nat → Rat) (sched : List Bool),
      1 < ((concRun 1 1 clock sched concInit).reqs).countP (inWindow 1 0) :=
  ⟨fun _ => 0, [false, true, false, true], by decide⟩

/-! ## Claim C1: the sliding-window invariant of sequential acquire -/

theorem headI_mem_of_ne_nil (l : List Rat) (h : l ≠ []) : l.headI ∈ l := by
  cases l with
  | nil => exact absurd rfl h
  | cons a t => exact List.mem_cons_self a t

theorem countP_mono_of_imp {α : Type} (p q : α → Bool) :
    ∀ l : List α, (∀ x ∈ l, p x = true → q x = true) →
      l.countP p ≤ l.countP q := by
  intro l
  induction l with
  | nil => intro _; simp
  | cons a t ih =>
    intro h
    simp only [List.countP_cons]
    have ht := ih (fun x hx => h x (List.mem_cons_of_mem a hx))
    by_cases hp : p a = true
    · have hq := h a (List.mem_cons_self a t) hp
      simp [hp, hq]
      omega
    · have hp2 : p a = false := by simpa using hp
      simp [hp2]
      by_cases hq : q a = true
      · simp [hq]
        omega
      · have hq2 : q a = false := by simpa using hq
        simp [hq2]
        omega

theorem countP_lt_of_mem {α : Type} (p q : α → Bool) (a : α)
    (hqa : q a = true) (hpa : p a = false) :
    ∀ l : List α, (∀ x ∈ l, p x = true → q x = true) → a ∈ l →
      l.countP p < l.countP q := by
  intro l
  induction l with
  | nil => intro _ ha; simp at ha
  | cons b t ih =>
    intro h ha
    simp only [List.countP_cons]
    rcases List.mem_cons.mp ha with rfl | hat
    · have hmono := countP_mono_of_imp p q t (fun x hx => h x (List.mem_cons_of_mem a hx))
      simp [hpa, hqa]
      omega
    · have hlt := ih (fun x hx => h x (List.mem_cons_of_mem b hx)) hat
      by_cases hpb : p b = true
      · have hqb := h b (List.mem_cons_self b t) hpb
        simp [hpb, hqb]
        omega
      · have hpb2 : p b = false := by simpa using hpb
        simp [hpb2]
        by_cases hqb : q b = true
        · simp [hqb]
          omega
        · have hqb2 : q b = false := by simpa using hqb
          simp [hqb2]
          omega

theorem pruneReqs_eq_filter (W now : Rat) :
    ∀ l : List Rat, l.Sorted (· ≤ ·) →
      pruneReqs W now l = l.filter (fun t => decide (now - W ≤ t)) := by
  intro l
  induction l with
  | nil => intro _; rfl
  | cons t ts ih =>
    intro hs
    obtain ⟨hrel, hts⟩ := List.sorted_cons.mp hs
    rw [pruneReqs]
    by_cases h : t < now - W
    · rw [if_pos h, ih hts, List.filter_cons]
      simp [not_le.mpr h]
    · rw [if_neg h, List.filter_cons]
      have hle : now - W ≤ t := not_lt.mp h
      simp only [decide_eq_true hle, if_pos]
      congr 1
      exact (List.filter_eq_self.mpr
        (fun x hx => decide_eq_true (le_trans hle (hrel x hx)))).symm

/-- The inductive invariant of the sequential rate-limiter model: the log is
sorted, every recorded timestamp precedes the next clock reading, the live
deque is the suffix of the log at or above a bound no later than the next
reading minus the window, and every trailing closed window of length `W`
holds at most `N` recorded timestamps. -/
structure RLInv (N : Nat) (W : Rat) (clock : Nat → Rat)
    (reqs log : List Rat) (i : Nat) : Prop where
  log_sorted : log.Sorted (· ≤ ·)
  log_lt : ∀ t ∈ log, t < clock i
  reqs_eq : ∃ b, b ≤ clock i - W ∧ reqs = log.filter (fun t => decide (b ≤ t))
  window_le : ∀ T : Rat, log.countP (inWindow W T) ≤ N

theorem acquireAux_inv (N : Nat) (W : Rat) (clock : Nat → Rat)
    (hN : 1 ≤ N) (hW : 0 < W) (hclock : StrictMono clock) :
    ∀ (fuel : Nat) (reqs log : List Rat) (i : Nat) (reqs2 log2 : List Rat) (i2 : Nat),
      RLInv N W clock reqs log i →
      acquireAux N W clock fuel reqs log i = some (reqs2, log2, i2) →
      RLInv N W clock reqs2 log2 i2 := by
  intro fuel
  induction fuel with
  | zero =>
    intro reqs log i r2 l2 i2 _ h
    simp [acquireAux] at h
  | succ fuel ih =>
    intro reqs log i r2 l2 i2 inv h
    obtain ⟨b, hb, hreq⟩ := inv.reqs_eq
    have hfsorted : (log.filter (fun t => decide (b ≤ t))).Sorted (· ≤ ·) :=
      inv.log_sorted.filter _
    have hprune : pruneReqs W (clock i) reqs
        = log.filter (fun t => decide (clock i - W ≤ t)) := by
      rw [hreq, pruneReqs_eq_filter W (clock i) _ hfsorted, List.filter_filter]
      apply List.filter_congr
      intro t ht
      by_cases hx : clock i - W ≤ t
      · have hbt : b ≤ t := le_trans hb hx
        simp [hx, hbt]
      · simp [hx]
    simp only [acquireAux] at h
    rw [hprune] at h
    set pr := log.filter (fun t => decide (clock i - W ≤ t)) with hpr
    have hlt1 : clock i < clock (i + 1) := hclock (Nat.lt_succ_self i)
    by_cases hcond : N ≤ pr.length ∧ 0 < W - (clock i - pr.headI)
    · rw [if_pos hcond] at h
      refine ih pr log (i + 1) r2 l2 i2 ⟨inv.log_sorted, ?_, ?_, inv.window_le⟩ h
      · exact fun t ht => lt_trans (inv.log_lt t ht) hlt1
      · exact ⟨clock i - W, by linarith, hpr⟩
    · rw [if_neg hcond] at h
      simp only [Option.some.injEq, Prod.mk.injEq] at h
      obtain ⟨rfl, rfl, rfl⟩ := h
      have hlt2 : ∀ t ∈ log, t < clock (i + 1) :=
        fun t ht => lt_trans (inv.log_lt t ht) hlt1
      refine ⟨?_, ?_, ?_, ?_⟩
      · refine List.pairwise_append.mpr ⟨inv.log_sorted, List.pairwise_singleton _ _, ?_⟩
        intro a ha x hx
        simp only [List.mem_singleton] at hx
        subst hx
        exact le_of_lt (hlt2 a ha)
      · intro t ht
        rcases List.mem_append.mp ht with ht | ht
        · exact lt_trans (inv.log_lt t ht) (hclock (by omega))
        · simp only [List.mem_singleton] at ht
          subst ht
          exact hclock (by omega)
      · refine ⟨clock i - W, ?_, ?_⟩
        · have hi2 : clock i < clock (i + 2) := hclock (by omega)
          linarith
        · have hcle : clock i - W ≤ clock (i + 1) := by linarith
          rw [List.filter_append, List.filter_cons, List.filter_nil,
            if_pos (decide_eq_true hcle)]
      · intro T
        rw [List.countP_append]
        by_cases hcw : inWindow W T (clock (i + 1)) = true
        · have hTc : T - W ≤ clock (i + 1) ∧ clock (i + 1) ≤ T := by
            simpa [inWindow] using hcw
          have hTgt : clock i < T := lt_of_lt_of_le hlt1 hTc.2
          have hcount1 : List.countP (inWindow W T) [clock (i + 1)] = 1 := by
            simp [hcw]
          rw [hcount1]
          have hmono : List.countP (inWindow W T) log
              ≤ List.countP (fun t => decide (clock i - W ≤ t)) log := by
            apply countP_mono_of_imp
            intro x hx hpx
            have hx2 : T - W ≤ x ∧ x ≤ T := by simpa [inWindow] using hpx
            have : clock i - W ≤ x := by linarith [hx2.1]
            exact decide_eq_true this
          have hfl : List.countP (fun t => decide (clock i - W ≤ t)) log
              = pr.length := by
            rw [hpr, List.countP_eq_length_filter]
          rcases not_and_or.mp hcond with hlen | hwait
          · have hlen2 : pr.length < N := not_le.mp hlen
            omega
          · have hwait2 : W - (clock i - pr.headI) ≤ 0 := not_lt.mp hwait
            by_cases hprnil : pr = []
            · have hzero : pr.length = 0 := by rw [hprnil]; rfl
              omega
            · have hd0mem : pr.headI ∈ pr := headI_mem_of_ne_nil pr hprnil
              rw [hpr] at hd0mem
              have hd0log : pr.headI ∈ log := (List.mem_filter.mp hd0mem).1
              have hge : clock i - W ≤ pr.headI :=
                of_decide_eq_true (List.mem_filter.mp hd0mem).2
              have heq0 : pr.headI = clock i - W := le_antisymm (by linarith) hge
              have hkey : List.countP (inWindow W T) log
                  < List.countP (inWindow W (clock i)) log := by
                apply countP_lt_of_mem (inWindow W T) (inWindow W (clock i)) pr.headI
                · rw [heq0]
                  simp only [inWindow, Bool.and_eq_true, decide_eq_true_eq]
                  exact ⟨le_refl _, by linarith⟩
                · have hnle : ¬ (T - W ≤ pr.headI) := by rw [heq0]; intro hc; linarith
                  simp [inWindow, hnle]
                · intro x hx hpx
                  have hx2 : T - W ≤ x ∧ x ≤ T := by simpa [inWindow] using hpx
                  simp only [inWindow, Bool.and_eq_true, decide_eq_true_eq]
                  exact ⟨by linarith [hx2.1], le_of_lt (inv.log_lt x hx)⟩
                · exact hd0log
              have hNi := inv.window_le (clock i)
              omega
        · have hcw2 : inWindow W T (clock (i + 1)) = false := by simpa using hcw
          have hcount0 : List.countP (inWindow W T) [clock (i + 1)] = 0 := by
            simp [hcw2]
          rw [hcount0]
          have := inv.window_le T
          omega

theorem rateLimiterRun_inv (N : Nat) (W : Rat) (clock : Nat → Rat)
    (hN : 1 ≤ N) (hW : 0 < W) (hclock : StrictMono clock) (fuel : Nat) :
    ∀ (k : Nat) (reqs log : List Rat) (i : Nat),
      rateLimiterRun N W clock fuel k = some (reqs, log, i) →
      RLInv N W clock reqs log i := by
  intro k
  induction k with
  | zero =>
    intro reqs log i h
    rw [rateLimiterRun] at h
    simp only [Option.some.injEq, Prod.mk.injEq] at h
    obtain ⟨rfl, rfl, rfl⟩ := h
    exact ⟨List.sorted_nil, by simp, ⟨clock 0 - W, le_refl _, by simp⟩, fun T => by simp⟩
  | succ k ih =>
    intro reqs log i h
    rw [rateLimiterRun] at h
    cases hrun : rateLimiterRun N W clock fuel k with
    | none =>
      rw [hrun] at h
      exact Option.noConfusion h
    | some s =>
      obtain ⟨r0, l0, i0⟩ := s
      rw [hrun] at h
      exact acquireAux_inv N W clock hN hW hclock fuel r0 l0 i0 reqs log i
        (ih r0 l0 i0 hrun) h

/-- Claim C1 (amended): for every `max_requests ≥ 1` and `time_window > 0`,
and every sequence of sequential `RateLimiter.acquire` /
`AsyncRateLimiter.acquire` calls whose successive `time.time()` readings
strictly increase, at no point do more than `max_requests` recorded
timestamps lie within any trailing closed interval of length `time_window`;
with repeated (equal) readings the bound can be breached, because an
acquire that finds the deque full but `wait_time == 0` records without
waiting (see the counterexample). -/
theorem rateLimiter_window_bound (N : Nat) (W : Rat) (clock : Nat → Rat)
    (hN : 1 ≤ N) (hW : 0 < W) (hclock : ∀ n, clock n < clock (n + 1))
    (fuel k : Nat) (reqs log : List Rat) (i : Nat)
    (hrun : rateLimiterRun N W clock fuel k = some (reqs, log, i)) (T : Rat) :
    log.countP (inWindow W T) ≤ N :=
  (rateLimiterRun_inv N W clock hN hW (strictMono_nat_of_lt_succ hclock) fuel
    k reqs log i hrun).window_le T

/-- Witness for the amended C1: two acquires with `N = 1`, `W = 1` under the
strictly increasing clock `n ↦ n` record timestamps 1 and 3, and the window
ending at time 3 holds at most one of them. -/
theorem rateLimiter_window_bound_witness :
    (1 : Nat) ≤ 1 ∧ (0 : Rat) < 1 ∧
    List.countP (inWindow 1 3) [(1 : Rat), 3] ≤ 1 :=
  ⟨le_refl 1, by norm_num,
    rateLimiter_window_bound 1 1 (fun n => (n : Rat)) (le_refl 1) (by norm_num)
      (fun n => by show (n : Rat) < ((n + 1 : Nat) : Rat); exact_mod_cast Nat.lt_succ_self n)
      1 2 [1, 3] [1, 3] 4 (by decide) 3⟩

/-- The repeated-reading clock 0, 0, 1, 1, 1, 1, ... -/
def cexClock : Nat → Rat := fun n => if n ≤ 1 then 0 else 1

/-- Claim C1 counterexample: with `max_requests = 1`, `time_window = 1` and
the nondecreasing (physically realizable) reading stream 0, 0, 1, 1, 1, 1,
the second and third sequential acquires each find the pruned deque full
with the oldest timestamp exactly one window old, compute `wait_time = 0`,
and record WITHOUT waiting: the recorded timestamps become 0, 1, 1 and the
trailing half-open window `(0, 1]` holds 2 > 1 of them. -/
theorem rateLimiter_window_cex :
    rateLimiterRun 1 1 cexClock 1 3 = some ([0, 1, 1], [0, 1, 1], 6) ∧
    1 < List.countP (inWindowO 1 1) [(0 : Rat), 1, 1] := by
  constructor <;> decide
